import Mathlib

/-!
Verification of the archive-unpacker volume layer (`unpacker/cpp/volume.cc`)
and of the windowed read contract of its `VolumeArchive`.

The embedding models:
* `pp::Var` / `pp::VarDictionary` values as a mutual inductive (`PVar`/`PDict`);
* `CreateEntry` and `ConstructMetadata` from `volume.cc` (metadata tree
  construction), with the recursion on the path expressed structurally via a
  fuel argument equal to the path length (the C++ recursion consumes at least
  one character of the path per call, so this fuel is always sufficient);
* the `Volume` request dispatch (`ReadFileCallback`, `ReadChunkDone`,
  `ReadChunkError`, `CleanupVolumeArchive`) over an association-list registry;
* `VolumeArchiveLibarchive::ReadData`, whose implementation file is not part
  of the sources at hand, modelled from the specification.
-/

mutual

/-- A `pp::Var` value, restricted to the shapes `volume.cc` stores in
metadata dictionaries: undefined, booleans, strings and dictionaries. -/
inductive PVar where
  | undef : PVar
  | boolV : Bool → PVar
  | strV : String → PVar
  | dictV : PDict → PVar

/-- A `pp::VarDictionary`: a finite sequence of key/value bindings. -/
inductive PDict where
  | nil : PDict
  | cons : String → PVar → PDict → PDict

end

/-- `pp::VarDictionary::Get`: value of the first binding of `key`, or
undefined when the key is absent. -/
def pdGet : PDict → String → PVar
  | PDict.nil, _ => PVar.undef
  | PDict.cons k v rest, key => if k = key then v else pdGet rest key

/-- `pp::VarDictionary::Set`: replace the first binding of `key`, or append a
new binding when the key is absent. -/
def pdSet : PDict → String → PVar → PDict
  | PDict.nil, key, v => PDict.cons key v PDict.nil
  | PDict.cons k w rest, key, v =>
      if k = key then PDict.cons k v rest else PDict.cons k w (pdSet rest key v)

/-- Whether a key is bound in a dictionary. -/
def pdHas : PDict → String → Bool
  | PDict.nil, _ => false
  | PDict.cons k _ rest, key => if k = key then true else pdHas rest key

/-- Number of bindings of a dictionary. -/
def pdLength : PDict → Nat
  | PDict.nil => 0
  | PDict.cons _ _ rest => pdLength rest + 1

/-- `pp::Var::is_undefined`. -/
def PVar.isUndef : PVar → Bool
  | PVar.undef => true
  | _ => false

/-- Whether a `pp::Var` holds a dictionary. -/
def PVar.isDict : PVar → Bool
  | PVar.dictV _ => true
  | _ => false

/-- The `pp::VarDictionary(const pp::Var&)` conversion: a dictionary var is
taken as is, any other var yields a fresh empty dictionary. -/
def toDict : PVar → PDict
  | PVar.dictV d => d
  | _ => PDict.nil

/-- The boolean value of a node's `"isDirectory"` attribute
(`Get("isDirectory").AsBool()`); `false` when absent or not a boolean. -/
def isDirFlag (d : PDict) : Bool :=
  match pdGet d "isDirectory" with
  | PVar.boolV b => b
  | _ => false

/-- The string value of an attribute of a node (empty when absent or not a
string). -/
def strAttr (d : PDict) (key : String) : String :=
  match pdGet d key with
  | PVar.strV s => s
  | _ => ""

/-- The children dictionary of a metadata node: its `"entries"` value when
that value is a dictionary, empty otherwise. -/
def entriesOf (d : PDict) : PDict :=
  toDict (pdGet d "entries")

/-- The child node of name `name` of a metadata node (empty dictionary when
absent). -/
def childNode (d : PDict) (name : String) : PDict :=
  toDict (pdGet (entriesOf d) name)

/-- `CreateEntry` from `volume.cc`: builds one metadata node; the
`"entries"` children dictionary is added only for directories. -/
def CreateEntry (name : String) (is_directory : Bool) (size : Int)
    (modification_time : Int) : PDict :=
  let e := pdSet PDict.nil "isDirectory" (PVar.boolV is_directory)
  let e := pdSet e "name" (PVar.strV name)
  let e := pdSet e "size" (PVar.strV (toString size))
  let e := pdSet e "modificationTime" (PVar.strV (toString modification_time))
  if is_directory then pdSet e "entries" (PVar.dictV PDict.nil) else e

/-- `ConstructMetadata` from `volume.cc`, structurally recursive on a fuel
argument; each C++ recursive call drops at least the delimiter character from
the path, so fuel equal to the initial path length is sufficient and the
fuel-exhausted branch is unreachable from `ConstructMetadata`. -/
def constructMetadataAux : Nat → List Char → Int → Bool → Int → PDict → PDict
  | _, [], _, _, _, parent_metadata => parent_metadata
  | 0, _ :: _, _, _, _, parent_metadata => parent_metadata
  | Nat.succ fuel, entry_path@(_ :: _), size, is_directory, modification_time,
      parent_metadata =>
    let parent_entries := toDict (pdGet parent_metadata "entries")
    let position := entry_path.indexOf '/'
    if position = entry_path.length then
      -- The entry itself (no delimiter found).
      let entry_name := String.mk entry_path
      let entry_metadata :=
        CreateEntry entry_name is_directory size modification_time
      let old_entry_metadata_var := pdGet parent_entries entry_name
      let entry_metadata :=
        if old_entry_metadata_var.isUndef then entry_metadata
        else
          pdSet entry_metadata "entries"
            (pdGet (toDict old_entry_metadata_var) "entries")
      pdSet parent_metadata "entries"
        (PVar.dictV (pdSet parent_entries entry_name
          (PVar.dictV entry_metadata)))
    else
      -- Next parent on the way to the entry.
      let entry_name := String.mk (entry_path.take position)
      let entry_metadata_var := pdGet parent_entries entry_name
      let entry_metadata :=
        if entry_metadata_var.isUndef then
          CreateEntry entry_name true 0 modification_time
        else toDict (pdGet parent_entries entry_name)
      let entry_path_without_next_parent := entry_path.drop (position + 1)
      let entry_metadata :=
        constructMetadataAux fuel entry_path_without_next_parent size
          is_directory modification_time entry_metadata
      pdSet parent_metadata "entries"
        (PVar.dictV (pdSet parent_entries entry_name
          (PVar.dictV entry_metadata)))

/-- `ConstructMetadata(entry_path, size, is_directory, modification_time,
parent_metadata)` from `volume.cc`. -/
def ConstructMetadata (entry_path : List Char) (size : Int)
    (is_directory : Bool) (modification_time : Int)
    (parent_metadata : PDict) : PDict :=
  constructMetadataAux entry_path.length entry_path size is_directory
    modification_time parent_metadata

/-- Local consistency of one metadata node: its `"entries"` value is a
dictionary exactly when its `"isDirectory"` attribute is `true`. -/
def nodeOk (d : PDict) : Bool :=
  (pdGet d "entries").isDict == isDirFlag d

mutual

/-- Walks the bindings of a node, checking the subtree under every
`"entries"` binding. -/
def wfAux : PDict → Bool
  | PDict.nil => true
  | PDict.cons k v rest =>
      (if k = "entries" then wfVal v else true) && wfAux rest

/-- An `"entries"` value: when it is a dictionary its bindings are child
nodes; any other value carries no children. -/
def wfVal : PVar → Bool
  | PVar.dictV e => wfChildren e
  | _ => true

/-- All bindings of a children dictionary are well-formed child nodes. -/
def wfChildren : PDict → Bool
  | PDict.nil => true
  | PDict.cons _ v rest => wfChild v && wfChildren rest

/-- A child binding must be a dictionary node that is itself well-formed. -/
def wfChild : PVar → Bool
  | PVar.dictV n => nodeOk n && wfAux n
  | _ => false

end

/-- A metadata node is well-formed when it is locally consistent and all its
descendants are. -/
def wfNode (d : PDict) : Bool :=
  nodeOk d && wfAux d

/-- Whether one `ConstructMetadata` insertion is kind-consistent with the
current tree: walking the path never merges a terminal entry into an existing
node of the other directory-kind, and never descends through an existing
non-directory node.  Mirrors the branching of `constructMetadataAux`. -/
def insertOkAux : Nat → PDict → List Char → Bool → Bool
  | _, _, [], _ => true
  | 0, _, _ :: _, _ => true
  | Nat.succ fuel, parent_metadata, entry_path@(_ :: _), is_directory =>
    let parent_entries := toDict (pdGet parent_metadata "entries")
    let position := entry_path.indexOf '/'
    if position = entry_path.length then
      match pdGet parent_entries (String.mk entry_path) with
      | PVar.undef => true
      | PVar.dictV old => isDirFlag old == is_directory
      | _ => false
    else
      match pdGet parent_entries (String.mk (entry_path.take position)) with
      | PVar.undef => true
      | PVar.dictV old =>
          isDirFlag old
            && insertOkAux fuel old (entry_path.drop (position + 1))
              is_directory
      | _ => false

/-- Kind-consistency of one insertion against the current tree. -/
def insertOk (parent_metadata : PDict) (entry_path : List Char)
    (is_directory : Bool) : Bool :=
  insertOkAux entry_path.length parent_metadata entry_path is_directory

/-- One archive entry handed to `ConstructMetadata` by
`Volume::ReadMetadataCallback`. -/
structure InsOp where
  path : List Char
  size : Int
  isDirectory : Bool
  mtime : Int

/-- Folding a sequence of entries into the metadata tree, as the header loop
of `Volume::ReadMetadataCallback` does. -/
def insertSeq (root : PDict) : List InsOp → PDict
  | [] => root
  | op :: ops =>
      insertSeq (ConstructMetadata op.path op.size op.isDirectory op.mtime
        root) ops

/-- Every insertion of the sequence is kind-consistent with the tree at the
time it is performed. -/
def insertSeqOk (root : PDict) : List InsOp → Bool
  | [] => true
  | op :: ops =>
      insertOk root op.path op.isDirectory
        && insertSeqOk (ConstructMetadata op.path op.size op.isDirectory
          op.mtime root) ops

/-!
## The windowed `ReadData` of `VolumeArchiveLibarchive`

Modelled from the spec: the implementation file of
`VolumeArchiveLibarchive::ReadData` (`volume_archive_libarchive.cc`) and its
constants header are not among the sources; only their unit tests are.  The
model follows the specified contract of the windowed `readData`:
a request behind the current forward cursor restarts the entry decode from
its beginning; a request ahead advances, discarding intervening bytes; at
most the bytes available in the entry are written to the caller's buffer and
the bytes beyond are left untouched; when the chunk pipeline can supply no
data at all (`content = none`), the call fails and the session's error
message becomes the read-data error prefix concatenated with the decoder's
own error string.
-/

/-- Modelled from the spec: the value of
`volume_archive_constants::kArchiveReadDataErrorPrefix` is declared in a
header that is not among the sources; only its role (a fixed prefix of the
composed read-data error message) is specified. -/
def kArchiveReadDataError : String := "Failed to read archive data: "

/-- Modelled from the spec: the decoder's own failure string
(`fake_lib_archive_config::kArchiveError` in the tests); its exact value is
not among the sources. -/
def kArchiveError : String := "An archive error occurred."

/-- The decoder-facing state of one `VolumeArchiveLibarchive` holding an
opened entry: the entry's content as the decoder can produce it (`none` when
the chunk pipeline supplies no data at all), the forward decode cursor inside
the entry, and the last error message. -/
structure VolumeArchiveLibarchive where
  content : Option (List Nat)
  cursor : Nat
  error_message : String

/-- Modelled from the spec: `VolumeArchiveLibarchive::ReadData(offset,
length, buffer)`.  Returns the success flag, the caller's buffer after the
call, and the archive state after the call. -/
def ReadData (va : VolumeArchiveLibarchive) (offset length : Nat)
    (buffer : List Nat) : Bool × List Nat × VolumeArchiveLibarchive :=
  match va.content with
  | none =>
      -- The decoder obtains no bytes at any position: the read fails and the
      -- composed error message is recorded.
      (false, buffer,
        { va with error_message := kArchiveReadDataError ++ kArchiveError })
  | some data =>
      -- Forward-only decoder: restart from the beginning of the entry when
      -- the request is behind the cursor, then advance to `offset`.
      let va := if offset < va.cursor then { va with cursor := 0 } else va
      let va := { va with cursor := offset }
      -- Read at most the bytes available in the entry from `offset` on.
      let bytes_read := min length (data.length - offset)
      let written := (data.drop offset).take bytes_read
      (true, written ++ buffer.drop bytes_read,
        { va with cursor := offset + bytes_read })

/-!
## The `Volume` request dispatch (`volume.cc`)
-/

/-- `kReadBufferSizeMax` from `volume.cc`: 512 KB. -/
def kReadBufferSizeMax : Int := 512 * 1024

/-- A message emitted through the `JavaScriptMessageSender`.  A
`readFileDone` chunk carries the archive offset it was read from and its
size, standing for the decompressed bytes placed in the array buffer. -/
inductive Msg where
  | fileSystemError (file_system_id request_id error_message : String)
  | readFileDone (file_system_id request_id : String)
      (chunkOffset chunkSize : Int) (has_more_data : Bool)

/-- One entry of `Volume::worker_reads_in_progress_`: the `VolumeArchive`
for an in-progress request.  `readOk offset length` abstracts whether
`VolumeArchive::ReadData(offset, length, _)` succeeds; `cleanupOk` abstracts
whether `VolumeArchive::Cleanup()` succeeds; `readerChunk`/`readerErrored`
model (from the spec) the single-slot state of the
`VolumeReaderJavaScriptStream` that `SetBufferAndSignal`/`ReadErrorSignal`
mutate, whose implementation is not among the sources. -/
structure VolumeArchiveEntry where
  request_id : String
  error_message : String
  cleanupOk : Bool
  readOk : Int → Int → Bool
  readerChunk : Option (List Nat × Int)
  readerErrored : Bool

/-- The `Volume` state visible to the dispatch functions: its file system id
and the registry of in-progress requests. -/
structure VolumeState where
  file_system_id : String
  worker_reads_in_progress : List (String × VolumeArchiveEntry)

/-- `Volume::GetVolumeArchive`: lookup in the registry map. -/
def GetVolumeArchive (st : VolumeState) (request_id : String) :
    Option VolumeArchiveEntry :=
  match st.worker_reads_in_progress.find? (fun p => p.1 == request_id) with
  | none => none
  | some p => some p.2

/-- `Volume::ReadChunkDone`: when the request is still registered, hand the
arrived chunk to the reader (`SetBufferAndSignal`); a late arrival for an
absent request id does nothing.  The function sends no messages. -/
def ReadChunkDone (st : VolumeState) (request_id : String)
    (array_buffer : List Nat) (read_offset : Int) :
    VolumeState × List Msg :=
  match GetVolumeArchive st request_id with
  | none => (st, [])
  | some _ =>
      ({ st with
          worker_reads_in_progress :=
            st.worker_reads_in_progress.map (fun p =>
              if p.1 = request_id then
                (p.1, { p.2 with readerChunk := some (array_buffer,
                  read_offset) })
              else p) }, [])

/-- `Volume::ReadChunkError`: when the request is still registered, signal
the read error to the reader; a late error for an absent request id does
nothing.  The function sends no messages. -/
def ReadChunkError (st : VolumeState) (request_id : String) :
    VolumeState × List Msg :=
  match GetVolumeArchive st request_id with
  | none => (st, [])
  | some _ =>
      ({ st with
          worker_reads_in_progress :=
            st.worker_reads_in_progress.map (fun p =>
              if p.1 = request_id then
                (p.1, { p.2 with readerErrored := true })
              else p) }, [])

/-- `Volume::CleanupVolumeArchive`: erase the entry from the registry, run
`VolumeArchive::Cleanup`, and report a cleanup failure only when
`post_cleanup_error` is set.  Returns the new state, the messages sent, and
the boolean result of the C++ function. -/
def CleanupVolumeArchive (st : VolumeState) (volume_archive :
    VolumeArchiveEntry) (post_cleanup_error : Bool) :
    VolumeState × List Msg × Bool :=
  let st' := { st with
    worker_reads_in_progress :=
      st.worker_reads_in_progress.filter
        (fun p => p.1 != volume_archive.request_id) }
  if !volume_archive.cleanupOk && post_cleanup_error then
    (st', [Msg.fileSystemError st.file_system_id volume_archive.request_id
      volume_archive.error_message], false)
  else
    (st', [], true)

/-- The chunking loop of `Volume::ReadFileCallback`, structurally recursive
on a fuel argument; every iteration decreases `length` by at least one, so
fuel `length.toNat` is sufficient and the fuel-exhausted branch is
unreachable from `ReadFileCallback`. -/
def readFileLoopAux (file_system_id request_id error_message : String)
    (readOk : Int → Int → Bool) : Nat → Int → Int → List Msg
  | 0, _, _ => []
  | Nat.succ fuel, offset, length =>
    if length > 0 then
      let has_more_data := decide (length > kReadBufferSizeMax)
      let buffer_size :=
        if length > kReadBufferSizeMax then kReadBufferSizeMax else length
      if readOk offset buffer_size then
        Msg.readFileDone file_system_id request_id offset buffer_size
            has_more_data
          :: readFileLoopAux file_system_id request_id error_message readOk
            fuel (offset + buffer_size) (length - buffer_size)
      else
        [Msg.fileSystemError file_system_id request_id error_message]
    else []

/-- The arguments extracted from a `ReadFile` request dictionary. -/
structure ReadFileArgs where
  open_request_id : String
  offset : Int
  length : Int

/-- `Volume::ReadFileCallback`: looks up the session opened by the matching
`OpenFile` and serves the requested range in bounded chunks.  The dispatch
never touches the registry map here; `none` models the
`PP_DCHECK(volume_archive)` contract violation when no session exists. -/
def ReadFileCallback (st : VolumeState) (request_id : String)
    (args : ReadFileArgs) : Option (VolumeState × List Msg) :=
  match GetVolumeArchive st args.open_request_id with
  | none => none
  | some volume_archive =>
      some (st,
        readFileLoopAux st.file_system_id request_id
          volume_archive.error_message volume_archive.readOk
          args.length.toNat args.offset args.length)

/-- Specification-side characterization of a chunk sequence serving the
window starting at `offset` with `length` bytes left: each chunk starts
where the previous one ended, its size is the minimum of the remaining
length and the 512 KB bound, its has-more flag is set exactly when the
remaining length before it exceeds that bound, and the chunks exhaust the
window. -/
def okChunkList : Int → Int → List (Int × Int × Bool) → Prop
  | _, length, [] => length = 0
  | offset, length, c :: rest =>
      0 < length ∧ c.1 = offset ∧ c.2.1 = min length kReadBufferSizeMax ∧
        (c.2.2 = true ↔ kReadBufferSizeMax < length) ∧
        okChunkList (offset + c.2.1) (length - c.2.1) rest

/-- The data-chunk messages corresponding to a chunk sequence. -/
def renderChunks (file_system_id request_id : String)
    (cl : List (Int × Int × Bool)) : List Msg :=
  cl.map (fun c =>
    Msg.readFileDone file_system_id request_id c.1 c.2.1 c.2.2)

/-- Total number of bytes covered by a chunk sequence. -/
def sizesSum (cl : List (Int × Int × Bool)) : Int :=
  (cl.map (fun c => c.2.1)).sum

/-- A registry entry whose reads always succeed (witness fixture). -/
def vaAllOk : VolumeArchiveEntry :=
  ⟨"open1", "", true, fun _ _ => true, none, false⟩

/-- A registry entry whose reads always fail (witness fixture). -/
def vaAllFail : VolumeArchiveEntry :=
  ⟨"open2", "read error", false, fun _ _ => false, none, false⟩

/-- A concrete `Volume` state holding both fixture sessions. -/
def stFixture : VolumeState :=
  ⟨"fsid", [("open1", vaAllOk), ("open2", vaAllFail)]⟩

/-!
## Helper lemmas
-/

theorem find?_filter_self_none (l : List (String × VolumeArchiveEntry))
    (id : String) :
    (l.filter (fun p => p.1 != id)).find? (fun p => p.1 == id) = none := by
  induction l with
  | nil => rfl
  | cons p rest ih =>
      by_cases hp : p.1 = id
      · rw [List.filter_cons_of_neg (by simp [hp])]
        exact ih
      · rw [List.filter_cons_of_pos (by simp [hp]),
          List.find?_cons_of_neg _ (by simp [hp])]
        exact ih

theorem find?_filter_other (l : List (String × VolumeArchiveEntry))
    (id rid : String) (h : rid ≠ id) :
    (l.filter (fun p => p.1 != id)).find? (fun p => p.1 == rid)
      = l.find? (fun p => p.1 == rid) := by
  induction l with
  | nil => rfl
  | cons p rest ih =>
      by_cases hp : p.1 = id
      · have hrid : ¬p.1 = rid := by
          intro hc
          exact h (hc ▸ hp ▸ rfl)
        rw [List.filter_cons_of_neg (by simp [hp]),
          List.find?_cons_of_neg _ (by simp [hrid])]
        exact ih
      · by_cases hr : p.1 = rid
        · rw [List.filter_cons_of_pos (by simp [hp]),
            List.find?_cons_of_pos _ (by simp [hr]),
            List.find?_cons_of_pos _ (by simp [hr])]
        · rw [List.filter_cons_of_pos (by simp [hp]),
            List.find?_cons_of_neg _ (by simp [hr]),
            List.find?_cons_of_neg _ (by simp [hr])]
          exact ih

/-!
## Claims about the dispatch (C8, C9, C10)
-/

/-- Claim C8: for every requestId not present in the session registry, a
chunk-arrival notification (`ReadChunkDone`) or chunk-error notification
(`ReadChunkError`) for that requestId returns without mutating any session
state, without emitting any message, and without raising an error. -/
theorem c8_stale_chunk_notifications_are_noops (st : VolumeState)
    (request_id : String) (array_buffer : List Nat) (read_offset : Int)
    (h : GetVolumeArchive st request_id = none) :
    ReadChunkDone st request_id array_buffer read_offset = (st, []) ∧
      ReadChunkError st request_id = (st, []) := by
  unfold ReadChunkDone ReadChunkError
  rw [h]
  exact ⟨rfl, rfl⟩

theorem c8_stale_chunk_notifications_are_noops_witness :
    GetVolumeArchive stFixture "no-such-request" = none ∧
      ReadChunkDone stFixture "no-such-request" [1, 2] 0 = (stFixture, []) ∧
      ReadChunkError stFixture "no-such-request" = (stFixture, []) :=
  ⟨rfl,
    (c8_stale_chunk_notifications_are_noops stFixture "no-such-request"
      [1, 2] 0 rfl).1,
    (c8_stale_chunk_notifications_are_noops stFixture "no-such-request"
      [1, 2] 0 rfl).2⟩

/-- Claim C9: for every session removal (`CleanupVolumeArchive`), the
session's entry is erased from the registry map regardless of whether
releasing decoder resources succeeds or fails, and a resource-release
failure is surfaced to the caller as an error message only when the
report-error flag is set. -/
theorem c9_cleanup_always_erases_and_reports_only_on_flag (st : VolumeState)
    (va : VolumeArchiveEntry) (post_cleanup_error : Bool) :
    GetVolumeArchive (CleanupVolumeArchive st va post_cleanup_error).1
        va.request_id = none ∧
      (∀ rid, rid ≠ va.request_id →
        GetVolumeArchive (CleanupVolumeArchive st va post_cleanup_error).1 rid
          = GetVolumeArchive st rid) ∧
      (CleanupVolumeArchive st va post_cleanup_error).2.1 =
        (if !va.cleanupOk && post_cleanup_error then
          [Msg.fileSystemError st.file_system_id va.request_id
            va.error_message]
        else []) := by
  have hmap : ((CleanupVolumeArchive st va
        post_cleanup_error).1).worker_reads_in_progress
      = st.worker_reads_in_progress.filter
        (fun p => p.1 != va.request_id) := by
    unfold CleanupVolumeArchive
    split <;> rfl
  refine ⟨?_, ?_, ?_⟩
  · unfold GetVolumeArchive
    rw [hmap, find?_filter_self_none]
  · intro rid hr
    unfold GetVolumeArchive
    rw [hmap, find?_filter_other _ _ _ hr]
  · unfold CleanupVolumeArchive
    by_cases hcb : (!va.cleanupOk && post_cleanup_error) = true
    · simp [hcb]
    · simp only [Bool.not_eq_true] at hcb
      simp [hcb]

theorem c9_cleanup_always_erases_and_reports_only_on_flag_witness :
    GetVolumeArchive (CleanupVolumeArchive stFixture vaAllFail true).1 "open2"
        = none ∧
      GetVolumeArchive (CleanupVolumeArchive stFixture vaAllFail true).1
          "open1" = GetVolumeArchive stFixture "open1" ∧
      (CleanupVolumeArchive stFixture vaAllFail true).2.1
        = [Msg.fileSystemError "fsid" "open2" "read error"] :=
  ⟨(c9_cleanup_always_erases_and_reports_only_on_flag stFixture vaAllFail
      true).1,
    (c9_cleanup_always_erases_and_reports_only_on_flag stFixture vaAllFail
      true).2.1 "open1" (by decide),
    ((c9_cleanup_always_erases_and_reports_only_on_flag stFixture vaAllFail
      true).2.2).trans rfl⟩

/-- Claim C10: for every ReadFile request whose requested length is zero or
negative, the dispatch emits nothing at all for that request — no data
chunk, no completion response, no error message — and the looked-up session
and the registry are left unchanged. -/
theorem c10_nonpositive_length_read_emits_nothing (st : VolumeState)
    (request_id : String) (args : ReadFileArgs) (va : VolumeArchiveEntry)
    (h : GetVolumeArchive st args.open_request_id = some va)
    (hlen : args.length ≤ 0) :
    ReadFileCallback st request_id args = some (st, []) := by
  unfold ReadFileCallback
  rw [h, Int.toNat_of_nonpos hlen]
  rfl

theorem c10_nonpositive_length_read_emits_nothing_witness :
    GetVolumeArchive stFixture "open1" = some vaAllOk ∧ (-5 : Int) ≤ 0 ∧
      ReadFileCallback stFixture "read9" ⟨"open1", 0, -5⟩
        = some (stFixture, []) :=
  ⟨rfl, by decide,
    c10_nonpositive_length_read_emits_nothing stFixture "read9"
      ⟨"open1", 0, -5⟩ vaAllOk rfl (by decide)⟩

/-!
## Claims about the windowed ReadData (C1, C2, C3) — spec-modelled
-/

/-- Claim C1: for every archive entry and every (offset, length) window
lying within the entry's size, `ReadData(offset, length, buffer)` returns
true and fills the buffer with exactly the entry's true content bytes
`[offset, offset+length)` — including when the offset is behind the
decoder's forward cursor (transparent restart-from-beginning) — and the
entry content is preserved, so any sequence of such calls yields the
correct slice each time. -/
theorem c1_readData_returns_exact_window (va : VolumeArchiveLibarchive)
    (data : List Nat) (offset length : Nat) (buffer : List Nat)
    (hc : va.content = some data) (hw : offset + length ≤ data.length)
    (_hb : length ≤ buffer.length) :
    (ReadData va offset length buffer).1 = true ∧
      ((ReadData va offset length buffer).2.1).take length
        = (data.drop offset).take length ∧
      ((ReadData va offset length buffer).2.1).drop length
        = buffer.drop length ∧
      ((ReadData va offset length buffer).2.2).content = va.content := by
  have hbr : min length (data.length - offset) = length :=
    Nat.min_eq_left (Nat.le_sub_of_add_le (by omega))
  have hwl : ((data.drop offset).take length).length = length := by
    rw [List.length_take, List.length_drop]
    omega
  unfold ReadData
  rw [hc]
  simp only [hbr]
  refine ⟨trivial, ?_, ?_, ?_⟩
  · rw [List.take_left' hwl]
  · rw [List.drop_left' hwl]
  · split
    · rfl
    · exact hc

theorem c1_readData_returns_exact_window_witness :
    (⟨some [5, 6, 7, 8, 9], 4, ""⟩ :
        VolumeArchiveLibarchive).content = some [5, 6, 7, 8, 9] ∧
      1 + 3 ≤ ([5, 6, 7, 8, 9] : List Nat).length ∧
      3 ≤ ([0, 0, 0, 0] : List Nat).length ∧
      ((ReadData ⟨some [5, 6, 7, 8, 9], 4, ""⟩ 1 3 [0, 0, 0, 0]).1 = true ∧
        ((ReadData ⟨some [5, 6, 7, 8, 9], 4, ""⟩ 1 3 [0, 0, 0, 0]).2.1).take 3
          = (([5, 6, 7, 8, 9] : List Nat).drop 1).take 3 ∧
        ((ReadData ⟨some [5, 6, 7, 8, 9], 4, ""⟩ 1 3 [0, 0, 0, 0]).2.1).drop 3
          = ([0, 0, 0, 0] : List Nat).drop 3 ∧
        ((ReadData ⟨some [5, 6, 7, 8, 9], 4, ""⟩ 1 3 [0, 0, 0, 0]).2.2).content
          = (⟨some [5, 6, 7, 8, 9], 4, ""⟩ :
              VolumeArchiveLibarchive).content) :=
  ⟨rfl, by decide, by decide,
    c1_readData_returns_exact_window ⟨some [5, 6, 7, 8, 9], 4, ""⟩
      [5, 6, 7, 8, 9] 1 3 [0, 0, 0, 0] rfl (by decide) (by decide)⟩

/-- Claim C2: for every open entry of size `entrySize` and every requested
length greater than `entrySize`, `ReadData(0, length, buffer)` returns
success, writes exactly `entrySize` bytes into the destination buffer, and
leaves every destination byte at index `>= entrySize` unmodified; it does
not report an error. -/
theorem c2_readData_beyond_size_truncates (va : VolumeArchiveLibarchive)
    (data : List Nat) (length : Nat) (buffer : List Nat)
    (hc : va.content = some data) (hl : data.length < length)
    (_hb : length ≤ buffer.length) :
    (ReadData va 0 length buffer).1 = true ∧
      ((ReadData va 0 length buffer).2.1).take data.length = data ∧
      ((ReadData va 0 length buffer).2.1).drop data.length
        = buffer.drop data.length := by
  have hbr : min length (data.length - 0) = data.length := by
    rw [Nat.sub_zero]
    exact Nat.min_eq_right (Nat.le_of_lt hl)
  have hwl : ((data.drop 0).take data.length).length = data.length := by
    rw [List.length_take, List.length_drop]
    omega
  unfold ReadData
  rw [hc]
  simp only [hbr]
  refine ⟨trivial, ?_, ?_⟩
  · rw [List.take_left' hwl, List.drop_zero, List.take_length]
  · rw [List.drop_left' hwl]

theorem c2_readData_beyond_size_truncates_witness :
    (⟨some [5, 6, 7], 0, ""⟩ :
        VolumeArchiveLibarchive).content = some [5, 6, 7] ∧
      ([5, 6, 7] : List Nat).length < 6 ∧
      6 ≤ ([0, 0, 0, 0, 0, 0] : List Nat).length ∧
      ((ReadData ⟨some [5, 6, 7], 0, ""⟩ 0 6 [0, 0, 0, 0, 0, 0]).1 = true ∧
        ((ReadData ⟨some [5, 6, 7], 0, ""⟩ 0 6
            [0, 0, 0, 0, 0, 0]).2.1).take ([5, 6, 7] : List Nat).length
          = [5, 6, 7] ∧
        ((ReadData ⟨some [5, 6, 7], 0, ""⟩ 0 6
            [0, 0, 0, 0, 0, 0]).2.1).drop ([5, 6, 7] : List Nat).length
          = ([0, 0, 0, 0, 0, 0] : List Nat).drop
              ([5, 6, 7] : List Nat).length) :=
  ⟨rfl, by decide, by decide,
    c2_readData_beyond_size_truncates ⟨some [5, 6, 7], 0, ""⟩ [5, 6, 7] 6
      [0, 0, 0, 0, 0, 0] rfl (by decide) (by decide)⟩

/-- Claim C3: for every offset (zero or nonzero) at which the underlying
chunk source can supply no data, `ReadData` returns failure and the
session's error message equals the fixed read-data error prefix
concatenated with the decoder's own error string; the composed message is
the same for all such offsets. -/
theorem c3_readData_no_data_error_message (va : VolumeArchiveLibarchive)
    (offset length : Nat) (buffer : List Nat) (hc : va.content = none) :
    (ReadData va offset length buffer).1 = false ∧
      ((ReadData va offset length buffer).2.2).error_message
        = kArchiveReadDataError ++ kArchiveError := by
  unfold ReadData
  rw [hc]
  exact ⟨rfl, rfl⟩

theorem c3_readData_no_data_error_message_witness :
    ((ReadData ⟨none, 0, ""⟩ 0 10 []).1 = false ∧
        ((ReadData ⟨none, 0, ""⟩ 0 10 []).2.2).error_message
          = kArchiveReadDataError ++ kArchiveError) ∧
      ((ReadData ⟨none, 0, ""⟩ 10 10 []).1 = false ∧
        ((ReadData ⟨none, 0, ""⟩ 10 10 []).2.2).error_message
          = kArchiveReadDataError ++ kArchiveError) :=
  ⟨c3_readData_no_data_error_message ⟨none, 0, ""⟩ 0 10 [] rfl,
    c3_readData_no_data_error_message ⟨none, 0, ""⟩ 10 10 [] rfl⟩

/-!
## Claims about the ReadFile chunking loop (C6, C7)
-/

theorem okChunkList_zero (offset : Int) (cl : List (Int × Int × Bool))
    (h : okChunkList offset 0 cl) : cl = [] := by
  cases cl with
  | nil => rfl
  | cons c rest => exact absurd h.1 (by omega)

theorem okChunkList_sum (cl : List (Int × Int × Bool)) :
    ∀ offset length, okChunkList offset length cl → sizesSum cl = length := by
  induction cl with
  | nil =>
      intro offset length h
      exact h.symm
  | cons c rest ih =>
      intro offset length h
      have hrest := ih (offset + c.2.1) (length - c.2.1) h.2.2.2.2
      simp only [sizesSum, List.map_cons, List.sum_cons] at hrest ⊢
      omega

theorem okChunkList_hasMore_iff_last (pre : List (Int × Int × Bool))
    (c : Int × Int × Bool) (post : List (Int × Int × Bool)) :
    ∀ offset length, okChunkList offset length (pre ++ c :: post) →
      (c.2.2 = false ↔ post = []) := by
  induction pre with
  | nil =>
      intro offset length h
      obtain ⟨hpos, -, hsz, hiff, hrest⟩ := h
      have hminle : min length kReadBufferSizeMax ≤ kReadBufferSizeMax :=
        min_le_right _ _
      have hminle' : min length kReadBufferSizeMax ≤ length :=
        min_le_left _ _
      constructor
      · intro hf
        have hnmax : ¬kReadBufferSizeMax < length := by
          intro hmax
          rw [hiff.mpr hmax] at hf
          exact Bool.true_eq_false.mp hf
        have hlen : c.2.1 = length := by
          rw [hsz]
          exact min_eq_left (by omega)
        rw [hlen] at hrest
        simp only [sub_self] at hrest
        exact okChunkList_zero _ _ hrest
      · intro hp
        subst hp
        have hz : length - c.2.1 = 0 := hrest
        have : ¬kReadBufferSizeMax < length := by omega
        have := hiff.not.mpr this
        exact Bool.not_eq_true _ ▸ this
  | cons p pre ih =>
      intro offset length h
      exact ih _ _ h.2.2.2.2

theorem readFileLoop_all_ok (file_system_id request_id error_message :
    String) (readOk : Int → Int → Bool)
    (hall : ∀ o l, readOk o l = true) :
    ∀ fuel (offset length : Int), 0 ≤ length → length.toNat ≤ fuel →
      ∃ cl, readFileLoopAux file_system_id request_id error_message readOk
          fuel offset length
        = renderChunks file_system_id request_id cl ∧
        okChunkList offset length cl := by
  have hKpos : (0 : Int) < kReadBufferSizeMax := by decide
  intro fuel
  induction fuel with
  | zero =>
      intro offset length h0 hf
      have : length = 0 := by omega
      subst this
      exact ⟨[], rfl, rfl⟩
  | succ fuel ih =>
      intro offset length h0 hf
      by_cases hpos : length > 0
      · by_cases hmax : length > kReadBufferSizeMax
        · have hb1 : (0 : Int) ≤ length - kReadBufferSizeMax := by omega
          have hb2 : (length - kReadBufferSizeMax).toNat ≤ fuel := by omega
          obtain ⟨cl, hcl, hok⟩ :=
            ih (offset + kReadBufferSizeMax) (length - kReadBufferSizeMax)
              hb1 hb2
          refine ⟨(offset, kReadBufferSizeMax, true) :: cl, ?_, ?_⟩
          · simp only [readFileLoopAux]
            rw [if_pos hpos, if_pos hmax, if_pos (hall _ _), hcl]
            simp only [renderChunks, List.map_cons]
            rw [decide_eq_true hmax]
          · refine ⟨hpos, rfl, ?_, ?_, ?_⟩
            · show kReadBufferSizeMax = min length kReadBufferSizeMax
              exact (min_eq_right (le_of_lt hmax)).symm
            · show (true = true ↔ kReadBufferSizeMax < length)
              exact iff_of_true rfl hmax
            · exact hok
        · have hb2 : (length - length).toNat ≤ fuel := by omega
          obtain ⟨cl, hcl, hok⟩ :=
            ih (offset + length) (length - length) (by omega) hb2
          refine ⟨(offset, length, false) :: cl, ?_, ?_⟩
          · simp only [readFileLoopAux]
            rw [if_pos hpos, if_neg hmax, if_pos (hall _ _), hcl]
            simp only [renderChunks, List.map_cons]
            rw [decide_eq_false hmax]
          · refine ⟨hpos, rfl, ?_, ?_, ?_⟩
            · show length = min length kReadBufferSizeMax
              exact (min_eq_left (by omega)).symm
            · show (false = true ↔ kReadBufferSizeMax < length)
              exact iff_of_false (by simp) (by omega)
            · exact hok
      · have : length = 0 := by omega
        subst this
        refine ⟨[], ?_, rfl⟩
        simp [readFileLoopAux, renderChunks]

theorem readFileLoop_shape (file_system_id request_id error_message :
    String) (readOk : Int → Int → Bool) :
    ∀ fuel (offset length : Int),
      ∃ ds, (∀ m ∈ ds, ∃ o s hm,
          m = Msg.readFileDone file_system_id request_id o s hm) ∧
        (readFileLoopAux file_system_id request_id error_message readOk fuel
            offset length = ds ∨
          readFileLoopAux file_system_id request_id error_message readOk fuel
            offset length
            = ds ++ [Msg.fileSystemError file_system_id request_id
                error_message]) := by
  intro fuel
  induction fuel with
  | zero =>
      intro offset length
      exact ⟨[], by simp, Or.inl rfl⟩
  | succ fuel ih =>
      intro offset length
      by_cases hpos : length > 0
      · set buffer_size : Int :=
          if length > kReadBufferSizeMax then kReadBufferSizeMax else length
          with hbs
        by_cases hro : readOk offset buffer_size = true
        · obtain ⟨ds, hds, hcase⟩ :=
            ih (offset + buffer_size) (length - buffer_size)
          refine ⟨Msg.readFileDone file_system_id request_id offset
            buffer_size (decide (length > kReadBufferSizeMax)) :: ds,
            ?_, ?_⟩
          · intro m hmem
            rcases List.mem_cons.mp hmem with hmeq | hmem'
            · subst hmeq
              exact ⟨offset, buffer_size,
                decide (length > kReadBufferSizeMax), rfl⟩
            · exact hds m hmem'
          · have hunf : readFileLoopAux file_system_id request_id
                error_message readOk (fuel + 1) offset length
                = Msg.readFileDone file_system_id request_id offset
                    buffer_size (decide (length > kReadBufferSizeMax))
                  :: readFileLoopAux file_system_id request_id error_message
                    readOk fuel (offset + buffer_size)
                    (length - buffer_size) := by
              simp only [readFileLoopAux]
              rw [if_pos hpos, ← hbs, if_pos hro]
            rcases hcase with hc | hc
            · exact Or.inl (by rw [hunf, hc])
            · exact Or.inr (by rw [hunf, hc]; rfl)
        · refine ⟨[], by simp, Or.inr ?_⟩
          simp only [readFileLoopAux]
          rw [if_pos hpos, ← hbs, if_neg hro]
          rfl
      · refine ⟨[], by simp, Or.inl ?_⟩
        simp only [readFileLoopAux]
        rw [if_neg hpos]

/-- Claim C6: for every ReadFile request with positive length, the dispatch
loop emits a sequence of data chunks whose sizes are each
`min(remaining, 512 KB)` and sum to the requested length, with consecutive
chunks covering consecutive offsets starting at the requested offset, and
the has-more flag of each chunk is true exactly when the remaining length
before that chunk exceeds the 512 KB maximum, so it is false only on the
final chunk. -/
theorem c6_read_file_chunking (st : VolumeState) (request_id : String)
    (args : ReadFileArgs) (va : VolumeArchiveEntry)
    (h : GetVolumeArchive st args.open_request_id = some va)
    (hall : ∀ o l, va.readOk o l = true) (hpos : 0 < args.length) :
    ∃ cl, ReadFileCallback st request_id args
        = some (st, renderChunks st.file_system_id request_id cl) ∧
      okChunkList args.offset args.length cl ∧
      sizesSum cl = args.length ∧
      (∀ pre c post, cl = pre ++ c :: post → (c.2.2 = false ↔ post = [])) := by
  obtain ⟨cl, hcl, hok⟩ :=
    readFileLoop_all_ok st.file_system_id request_id va.error_message
      va.readOk hall args.length.toNat args.offset args.length
      (le_of_lt hpos) (le_refl _)
  refine ⟨cl, ?_, hok, okChunkList_sum cl _ _ hok, ?_⟩
  · unfold ReadFileCallback
    rw [h]
    exact congrArg (fun msgs => some (st, msgs)) hcl
  · intro pre c post hceq
    exact okChunkList_hasMore_iff_last pre c post _ _ (hceq ▸ hok)

theorem c6_read_file_chunking_witness :
    GetVolumeArchive stFixture "open1" = some vaAllOk ∧
      (0 : Int) < 1048578 ∧
      (∃ cl, ReadFileCallback stFixture "read6" ⟨"open1", 0, 1048578⟩
          = some (stFixture, renderChunks "fsid" "read6" cl) ∧
        okChunkList 0 1048578 cl ∧
        sizesSum cl = 1048578 ∧
        (∀ pre c post, cl = pre ++ c :: post →
          (c.2.2 = false ↔ post = []))) :=
  ⟨rfl, by decide,
    c6_read_file_chunking stFixture "read6" ⟨"open1", 0, 1048578⟩ vaAllOk
      rfl (fun _ _ => rfl) (by decide)⟩

/-- Claim C7: if ReadData fails during a ReadFile request, exactly one error
message is emitted, against the read request's own identifier (not the open
request's identifier), no further data chunks are emitted for that request,
and the session stays in the registry: the state returned by the dispatch is
the unchanged input state, so the session is removed only by an explicit
CloseFile. -/
theorem c7_read_failure_single_error_session_kept (st : VolumeState)
    (request_id : String) (args : ReadFileArgs) (va : VolumeArchiveEntry)
    (h : GetVolumeArchive st args.open_request_id = some va) :
    ∃ msgs ds, ReadFileCallback st request_id args = some (st, msgs) ∧
      (∀ m ∈ ds, ∃ o s hm,
        m = Msg.readFileDone st.file_system_id request_id o s hm) ∧
      (msgs = ds ∨
        msgs = ds ++ [Msg.fileSystemError st.file_system_id request_id
          va.error_message]) := by
  obtain ⟨ds, hds, hcase⟩ :=
    readFileLoop_shape st.file_system_id request_id va.error_message
      va.readOk args.length.toNat args.offset args.length
  refine ⟨readFileLoopAux st.file_system_id request_id va.error_message
    va.readOk args.length.toNat args.offset args.length, ds, ?_, hds, hcase⟩
  unfold ReadFileCallback
  rw [h]

theorem c7_read_failure_single_error_session_kept_witness :
    ReadFileCallback stFixture "read7" ⟨"open2", 0, 5⟩
        = some (stFixture, [Msg.fileSystemError "fsid" "read7"
            "read error"]) ∧
      (∃ msgs ds,
        ReadFileCallback stFixture "read7" ⟨"open2", 0, 5⟩
            = some (stFixture, msgs) ∧
          (∀ m ∈ ds, ∃ o s hm,
            m = Msg.readFileDone "fsid" "read7" o s hm) ∧
          (msgs = ds ∨
            msgs = ds ++ [Msg.fileSystemError "fsid" "read7"
              "read error"])) :=
  ⟨rfl,
    c7_read_failure_single_error_session_kept stFixture "read7"
      ⟨"open2", 0, 5⟩ vaAllFail rfl⟩

/-!
## Claim C4: directory entry arriving after the files inside it
-/

/-- Claim C4: inserting the entry "/a/b.txt" with isDirectory=false into a
metadata tree via ConstructMetadata, followed by inserting "/a" with
isDirectory=true, yields a single node named "a" that is a directory
containing the child node "b.txt" — the later explicit directory entry
overwrites the placeholder's leaf attributes while preserving its
already-collected children — not two separate nodes named "a".  (With the
leading "/" the walk first passes through an empty-named segment, exactly as
the C++ path splitting does.) -/
theorem c4_late_directory_entry_merges_into_placeholder :
    pdLength (entriesOf (childNode
        (ConstructMetadata "/a".data 0 true 22
          (ConstructMetadata "/a/b.txt".data 100 false 11
            (CreateEntry "/" true 0 0))) "")) = 1 ∧
      isDirFlag (childNode (childNode
        (ConstructMetadata "/a".data 0 true 22
          (ConstructMetadata "/a/b.txt".data 100 false 11
            (CreateEntry "/" true 0 0))) "") "a") = true ∧
      pdHas (entriesOf (childNode (childNode
        (ConstructMetadata "/a".data 0 true 22
          (ConstructMetadata "/a/b.txt".data 100 false 11
            (CreateEntry "/" true 0 0))) "") "a")) "b.txt" = true ∧
      strAttr (childNode (childNode
        (ConstructMetadata "/a".data 0 true 22
          (ConstructMetadata "/a/b.txt".data 100 false 11
            (CreateEntry "/" true 0 0))) "") "a") "modificationTime"
        = "22" ∧
      isDirFlag (childNode (childNode (childNode
        (ConstructMetadata "/a".data 0 true 22
          (ConstructMetadata "/a/b.txt".data 100 false 11
            (CreateEntry "/" true 0 0))) "") "a")
          "b.txt") = false := by
  refine ⟨by decide, by decide, by decide, by decide, by decide⟩

/-!
## Claim C5: the entries-iff-directory invariant
-/

theorem pdGet_pdSet_self : ∀ (d : PDict) (key : String) (v : PVar),
    pdGet (pdSet d key v) key = v
  | PDict.nil, key, v => by simp [pdGet, pdSet]
  | PDict.cons k w rest, key, v => by
      by_cases hk : k = key
      · subst hk
        simp [pdGet, pdSet]
      · simp only [pdSet, if_neg hk, pdGet]
        exact pdGet_pdSet_self rest key v

theorem pdGet_pdSet_ne : ∀ (d : PDict) (key other : String) (v : PVar),
    other ≠ key → pdGet (pdSet d key v) other = pdGet d other
  | PDict.nil, key, other, v, h => by
      simp only [pdSet, pdGet]
      rw [if_neg (fun hc => h hc.symm)]
  | PDict.cons k w rest, key, other, v, h => by
      by_cases hk : k = key
      · subst hk
        simp only [pdSet, if_pos rfl, pdGet]
        rw [if_neg (fun hc => h hc.symm), if_neg (fun hc => h hc.symm)]
      · simp only [pdSet, if_neg hk, pdGet]
        by_cases hko : k = other
        · rw [if_pos hko, if_pos hko]
        · rw [if_neg hko, if_neg hko]
          exact pdGet_pdSet_ne rest key other v h

theorem wfAux_entries_val : ∀ (d : PDict), wfAux d = true →
    wfVal (pdGet d "entries") = true
  | PDict.nil, _ => rfl
  | PDict.cons k v rest, h => by
      simp only [wfAux, Bool.and_eq_true] at h
      simp only [pdGet]
      by_cases hk : k = "entries"
      · rw [if_pos hk]
        have := h.1
        rw [if_pos hk] at this
        exact this
      · rw [if_neg hk]
        exact wfAux_entries_val rest h.2

theorem wfAux_pdSet_entries : ∀ (d : PDict) (v : PVar), wfAux d = true →
    wfVal v = true → wfAux (pdSet d "entries" v) = true
  | PDict.nil, v, _, hv => by
      simp [pdSet, wfAux, hv]
  | PDict.cons k w rest, v, h, hv => by
      simp only [wfAux, Bool.and_eq_true] at h
      by_cases hk : k = "entries"
      · subst hk
        simp [pdSet, wfAux, hv, h.2]
      · simp only [pdSet, if_neg hk, wfAux, Bool.and_eq_true]
        exact ⟨trivial, wfAux_pdSet_entries rest v h.2 hv⟩

theorem wfChildren_pdGet : ∀ (e : PDict) (name : String),
    wfChildren e = true →
    pdGet e name = PVar.undef ∨ wfChild (pdGet e name) = true
  | PDict.nil, name, _ => Or.inl rfl
  | PDict.cons k v rest, name, h => by
      simp only [wfChildren, Bool.and_eq_true] at h
      simp only [pdGet]
      by_cases hk : k = name
      · rw [if_pos hk]
        exact Or.inr h.1
      · rw [if_neg hk]
        exact wfChildren_pdGet rest name h.2

theorem wfChildren_pdSet : ∀ (e : PDict) (key : String) (v : PVar),
    wfChildren e = true → wfChild v = true →
    wfChildren (pdSet e key v) = true
  | PDict.nil, key, v, _, hv => by simp [pdSet, wfChildren, hv]
  | PDict.cons k w rest, key, v, h, hv => by
      simp only [wfChildren, Bool.and_eq_true] at h
      by_cases hk : k = key
      · simp [pdSet, if_pos hk, wfChildren, hv, h.2]
      · simp only [pdSet, if_neg hk, wfChildren, Bool.and_eq_true]
        exact ⟨h.1, wfChildren_pdSet rest key v h.2 hv⟩

theorem createEntry_isDirectory (name : String) (b : Bool) (s t : Int) :
    pdGet (CreateEntry name b s t) "isDirectory" = PVar.boolV b := by
  cases b <;> rfl

theorem createEntry_isDirFlag (name : String) (b : Bool) (s t : Int) :
    isDirFlag (CreateEntry name b s t) = b := by
  cases b <;> rfl

theorem createEntry_nodeOk (name : String) (b : Bool) (s t : Int) :
    nodeOk (CreateEntry name b s t) = true := by
  cases b <;> rfl

theorem createEntry_wfAux (name : String) (b : Bool) (s t : Int) :
    wfAux (CreateEntry name b s t) = true := by
  cases b <;> rfl

theorem createEntry_wfNode (name : String) (b : Bool) (s t : Int) :
    wfNode (CreateEntry name b s t) = true := by
  cases b <;> rfl

theorem createEntry_entries_nil (name : String) (t : Int) :
    pdGet (CreateEntry name true 0 t) "entries" = PVar.dictV PDict.nil :=
  rfl

theorem insertOkAux_fresh : ∀ (fuel : Nat) (rest : List Char)
    (is_directory : Bool) (name : String) (t : Int),
    insertOkAux fuel (CreateEntry name true 0 t) rest is_directory = true := by
  intro fuel rest is_directory name t
  cases fuel with
  | zero => cases rest with
    | nil => rfl
    | cons c cs => rfl
  | succ f => cases rest with
    | nil => rfl
    | cons c cs =>
        simp only [insertOkAux]
        rw [createEntry_entries_nil]
        split <;> rfl

theorem cm_preserves_isDirectory : ∀ (fuel : Nat) (path : List Char)
    (s : Int) (d : Bool) (t : Int) (parent : PDict),
    pdGet (constructMetadataAux fuel path s d t parent) "isDirectory"
      = pdGet parent "isDirectory" := by
  intro fuel path s d t parent
  cases fuel with
  | zero => cases path with
    | nil => rfl
    | cons c cs => rfl
  | succ f => cases path with
    | nil => rfl
    | cons c cs =>
        simp only [constructMetadataAux]
        split
        · exact pdGet_pdSet_ne _ _ _ _ (by decide)
        · exact pdGet_pdSet_ne _ _ _ _ (by decide)

theorem andE_true {a b : Bool} (h : (a && b) = true) :
    a = true ∧ b = true := by
  rw [Bool.and_eq_true] at h
  exact h

theorem wfNode_split {d : PDict} (h : wfNode d = true) :
    nodeOk d = true ∧ wfAux d = true := by
  unfold wfNode at h
  exact andE_true h

theorem isDirFlag_pdSet_entries (d : PDict) (v : PVar) :
    isDirFlag (pdSet d "entries" v) = isDirFlag d := by
  unfold isDirFlag
  rw [pdGet_pdSet_ne d "entries" "isDirectory" v (by decide)]

theorem wf_update_parent (parent pe em : PDict) (name : String)
    (hwf : wfNode parent = true) (hdir : isDirFlag parent = true)
    (hch : wfChildren pe = true) (hem : wfNode em = true) :
    wfNode (pdSet parent "entries"
      (PVar.dictV (pdSet pe name (PVar.dictV em)))) = true := by
  have haux : wfAux parent = true := (wfNode_split hwf).2
  have hemok : nodeOk em = true := (wfNode_split hem).1
  have hemaux : wfAux em = true := (wfNode_split hem).2
  have hch' : wfChildren (pdSet pe name (PVar.dictV em)) = true := by
    refine wfChildren_pdSet pe name (PVar.dictV em) hch ?_
    simp only [wfChild, Bool.and_eq_true]
    exact ⟨hemok, hemaux⟩
  unfold wfNode
  rw [Bool.and_eq_true]
  constructor
  · unfold nodeOk
    rw [pdGet_pdSet_self, isDirFlag_pdSet_entries, hdir]
    rfl
  · refine wfAux_pdSet_entries parent _ haux ?_
    exact hch'

theorem nodeOk_entries_dict {d : PDict} (h : nodeOk d = true)
    (hdir : isDirFlag d = true) :
    ∃ e, pdGet d "entries" = PVar.dictV e := by
  unfold nodeOk at h
  rw [hdir] at h
  cases hx : pdGet d "entries" with
  | dictV e => exact ⟨e, rfl⟩
  | undef =>
      rw [hx] at h
      simp [PVar.isDict] at h
  | boolV b =>
      rw [hx] at h
      simp [PVar.isDict] at h
  | strV s =>
      rw [hx] at h
      simp [PVar.isDict] at h

theorem nodeOk_entries_isDict_eq {d : PDict} (h : nodeOk d = true) :
    (pdGet d "entries").isDict = isDirFlag d := by
  unfold nodeOk at h
  exact eq_of_beq h

theorem cm_preserves_wf : ∀ (fuel : Nat) (path : List Char) (s : Int)
    (d : Bool) (t : Int) (parent : PDict),
    wfNode parent = true → isDirFlag parent = true →
    insertOkAux fuel parent path d = true →
    wfNode (constructMetadataAux fuel path s d t parent) = true := by
  intro fuel
  induction fuel with
  | zero =>
      intro path s d t parent hwf _ _
      cases path with
      | nil => exact hwf
      | cons c cs => exact hwf
  | succ fuel ih =>
      intro path s d t parent hwf hdir hok
      cases path with
      | nil => exact hwf
      | cons c cs =>
        have hnodeOk : nodeOk parent = true := (wfNode_split hwf).1
        have haux : wfAux parent = true := (wfNode_split hwf).2
        obtain ⟨pe, hpe⟩ := nodeOk_entries_dict hnodeOk hdir
        have hchildren : wfChildren pe = true := by
          have hv := wfAux_entries_val parent haux
          rw [hpe] at hv
          exact hv
        simp only [constructMetadataAux]
        simp only [insertOkAux] at hok
        rw [hpe] at hok ⊢
        simp only [toDict] at hok ⊢
        by_cases hterm : ((c :: cs).indexOf '/') = (c :: cs).length
        · rw [if_pos hterm] at hok ⊢
          cases hold : pdGet pe (String.mk (c :: cs)) with
          | undef =>
              exact wf_update_parent parent pe _ _ hwf hdir hchildren
                (createEntry_wfNode _ d s t)
          | dictV old =>
              rw [hold] at hok
              have hok' : (isDirFlag old == d) = true := hok
              have heq : isDirFlag old = d := eq_of_beq hok'
              have hchild : wfChild (PVar.dictV old) = true := by
                rcases wfChildren_pdGet pe (String.mk (c :: cs)) hchildren
                  with hu | hc
                · rw [hold] at hu
                  exact absurd hu (by simp)
                · rw [hold] at hc
                  exact hc
              have hold_ok : nodeOk old = true ∧ wfAux old = true := by
                simp only [wfChild] at hchild
                exact andE_true hchild
              refine wf_update_parent parent pe _ _ hwf hdir hchildren ?_
              show wfNode (pdSet (CreateEntry (String.mk (c :: cs)) d s t)
                "entries" (pdGet old "entries")) = true
              unfold wfNode
              rw [Bool.and_eq_true]
              constructor
              · unfold nodeOk
                rw [pdGet_pdSet_self, isDirFlag_pdSet_entries,
                  createEntry_isDirFlag,
                  nodeOk_entries_isDict_eq hold_ok.1, heq]
                exact beq_self_eq_true d
              · exact wfAux_pdSet_entries _ _ (createEntry_wfAux _ d s t)
                  (wfAux_entries_val old hold_ok.2)
          | boolV b =>
              rw [hold] at hok
              simp at hok
          | strV str =>
              rw [hold] at hok
              simp at hok
        · rw [if_neg hterm] at hok ⊢
          cases hold : pdGet pe
              (String.mk ((c :: cs).take ((c :: cs).indexOf '/'))) with
          | undef =>
              refine wf_update_parent parent pe _ _ hwf hdir hchildren ?_
              show wfNode (constructMetadataAux fuel
                ((c :: cs).drop ((c :: cs).indexOf '/' + 1)) s d t
                (CreateEntry
                  (String.mk ((c :: cs).take ((c :: cs).indexOf '/')))
                  true 0 t)) = true
              exact ih _ s d t _ (createEntry_wfNode _ true 0 t)
                (createEntry_isDirFlag _ true 0 t)
                (insertOkAux_fresh fuel _ d _ t)
          | dictV old =>
              rw [hold] at hok
              have hok' : (isDirFlag old && insertOkAux fuel old
                  ((c :: cs).drop ((c :: cs).indexOf '/' + 1)) d) = true :=
                hok
              have hok2 := andE_true hok'
              have hchild : wfChild (PVar.dictV old) = true := by
                rcases wfChildren_pdGet pe
                    (String.mk ((c :: cs).take ((c :: cs).indexOf '/')))
                    hchildren with hu | hc
                · rw [hold] at hu
                  exact absurd hu (by simp)
                · rw [hold] at hc
                  exact hc
              have hold_wf : wfNode old = true := by
                unfold wfNode
                simp only [wfChild] at hchild
                exact hchild
              refine wf_update_parent parent pe _ _ hwf hdir hchildren ?_
              show wfNode (constructMetadataAux fuel
                ((c :: cs).drop ((c :: cs).indexOf '/' + 1)) s d t old)
                = true
              exact ih _ s d t old hold_wf hok2.1 hok2.2
          | boolV b =>
              rw [hold] at hok
              simp at hok
          | strV str =>
              rw [hold] at hok
              simp at hok

/-- Claim C5 (counterexample): the claim fails as stated.  Starting from a
well-formed root directory node, the kind-inconsistent but perfectly legal
sequence "a/b" (file) then "a" (file) makes `ConstructMetadata` merge the
terminal file entry "a" with the existing placeholder directory "a" (the
placeholder is a directory, so the merge `PP_DCHECK` passes), copying the
placeholder's entries dictionary onto a node whose isDirectory is false: the
resulting node has an entries mapping although its isDirectory attribute is
false. -/
theorem c5_entries_iff_directory_counterexample :
    wfNode (CreateEntry "/" true 0 0) = true ∧
      isDirFlag (CreateEntry "/" true 0 0) = true ∧
      wfNode (insertSeq (CreateEntry "/" true 0 0)
        [⟨"a/b".data, 4, false, 0⟩, ⟨"a".data, 0, false, 0⟩]) = false ∧
      isDirFlag (childNode (insertSeq (CreateEntry "/" true 0 0)
        [⟨"a/b".data, 4, false, 0⟩, ⟨"a".data, 0, false, 0⟩]) "a")
        = false ∧
      (pdGet (childNode (insertSeq (CreateEntry "/" true 0 0)
        [⟨"a/b".data, 4, false, 0⟩, ⟨"a".data, 0, false, 0⟩]) "a")
        "entries").isDict = true := by
  refine ⟨by decide, by decide, by decide, by decide, by decide⟩

/-- Claim C5 (amended): after any sequence of ConstructMetadata insertions
starting from a well-formed root directory node, in which every insertion is
kind-consistent with the tree at the time it is performed — a terminal entry
never merges with an existing node of the other directory-kind, and the walk
never descends through an existing non-directory node — every node in the
resulting metadata tree has a dictionary-valued entries mapping if and only
if its isDirectory attribute is true, including terminal nodes merged with a
pre-existing placeholder directory node. -/
theorem c5_kind_consistent_inserts_keep_entries_iff_directory :
    ∀ (ops : List InsOp) (root : PDict), wfNode root = true →
      isDirFlag root = true → insertSeqOk root ops = true →
      wfNode (insertSeq root ops) = true := by
  intro ops
  induction ops with
  | nil =>
      intro root hwf _ _
      exact hwf
  | cons op ops ih =>
      intro root hwf hdir hok
      have h2 := andE_true hok
      have hwf' : wfNode (ConstructMetadata op.path op.size op.isDirectory
          op.mtime root) = true :=
        cm_preserves_wf op.path.length op.path op.size op.isDirectory
          op.mtime root hwf hdir h2.1
      have hdir' : isDirFlag (ConstructMetadata op.path op.size
          op.isDirectory op.mtime root) = true := by
        unfold isDirFlag
        unfold ConstructMetadata
        rw [cm_preserves_isDirectory]
        unfold isDirFlag at hdir
        exact hdir
      exact ih _ hwf' hdir' h2.2

theorem c5_kind_consistent_inserts_keep_entries_iff_directory_witness :
    wfNode (CreateEntry "/" true 0 0) = true ∧
      isDirFlag (CreateEntry "/" true 0 0) = true ∧
      insertSeqOk (CreateEntry "/" true 0 0)
        [⟨"a/b.txt".data, 9, false, 3⟩, ⟨"a".data, 0, true, 4⟩] = true ∧
      wfNode (insertSeq (CreateEntry "/" true 0 0)
        [⟨"a/b.txt".data, 9, false, 3⟩, ⟨"a".data, 0, true, 4⟩]) = true :=
  ⟨by decide, by decide, by decide,
    c5_kind_consistent_inserts_keep_entries_iff_directory
      [⟨"a/b.txt".data, 9, false, 3⟩, ⟨"a".data, 0, true, 4⟩]
      (CreateEntry "/" true 0 0) (by decide) (by decide) (by decide)⟩
